import Mathlib

/-!
# Verification of the TOPSIS engine (`topsis_calculate` in `Part3/app.py`)

This file shallow-embeds the TOPSIS scoring engine of the repository:
the function `topsis_calculate(input_file, weights_str, impacts_str, output_file)`
(lines 30–94 of `Part3/app.py`).  The embedding follows the source line by
line:

* the CSV table read by `pd.read_csv` is modelled by `Table`: a rectangular
  frame whose first column is an opaque label and whose remaining `ncrit`
  criterion cells are modelled by their `pd.to_numeric(..., errors="coerce")`
  parse result (`Option ℚ`; `none` is a coerced `NaN`, i.e. a non-numeric or
  missing cell);
* the comma-splitting and `strip()` of the weights/impacts strings
  (lines 44–45) are implemented over `List Char` (`splitOnComma`, `trim`);
* Python's `float(x)` (line 54) is modelled by `parseFloat`, a parser for
  the plain sign/decimal fragment of `float` literals, which is the fragment
  the claims exercise;
* the validation chain (lines 33–60) is `firstErrorTok`, returning the first
  applicable error message exactly as raised by the source;
* the numeric pipeline (lines 64–92) is embedded over `ℝ`, with `np.sqrt`
  as `Real.sqrt`; matrix/column operations become lists indexed over
  `List.range`; pandas `rank(ascending=False, method="dense")` is
  `denseRankDesc`.  (`ℝ` has no NaN; degenerate divisions-by-zero of the
  source are analysed through their denominators, e.g. `colNorm`.)
-/

namespace Topsis

/-! ## Strings: comma-splitting, stripping, float parsing (lines 44–45, 53–56) -/

/-- Python's `str.split(",")` on a list of characters.  `"".split(",") = [""]`. -/
def splitOnComma : List Char → List (List Char)
  | [] => [[]]
  | ',' :: rest => [] :: splitOnComma rest
  | c :: rest =>
    match splitOnComma rest with
    | [] => [[c]]
    | t :: ts => (c :: t) :: ts

/-- Whitespace as recognised by Python's `str.strip()` (no argument). -/
def isWS (c : Char) : Bool := c.isWhitespace

/-- Remove trailing whitespace. -/
def dropTail (l : List Char) : List Char := (l.reverse.dropWhile isWS).reverse

/-- Python's `str.strip()`: remove leading and trailing whitespace. -/
def trim (l : List Char) : List Char := dropTail (l.dropWhile isWS)

/-- The token lists the source builds at lines 44–45:
`[w.strip() for w in s.split(",")]`. -/
def tokens (s : String) : List (List Char) := (splitOnComma s.toList).map trim

/-- Join token lists with `','`, the left inverse of `splitOnComma` on
comma-free tokens. -/
def intercalateComma : List (List Char) → List Char
  | [] => []
  | [x] => x
  | x :: y :: ys => x ++ ',' :: intercalateComma (y :: ys)

/-- The whitespace-free canonical form of a weights/impacts string: each
comma-separated token stripped, rejoined with `","`. -/
def canon (s : String) : String := String.mk (intercalateComma (tokens s))

/-- Numeric value of a decimal digit character. -/
def charDigit (c : Char) : ℕ := c.toNat - 48

/-- Value of a digit string (most significant first); `[] ↦ 0`. -/
def natOfDigits (l : List Char) : ℕ := l.foldl (fun a c => 10 * a + charDigit c) 0

/-- Model of Python's `float(x)` (line 54) on the plain decimal fragment:
an optional sign, then digits with at most one decimal point, with at least
one digit in total (`"7"`, `"-3.5"`, `".5"`, `"2."`).  Exotic accepted forms
of `float` (exponents, `inf`, `nan`, underscores) are outside the fragment
the claims exercise and are rejected, like every other malformed token. -/
def parseFloat (s : List Char) : Option ℚ :=
  let signBody : Bool × List Char :=
    match s with
    | '-' :: r => (true, r)
    | '+' :: r => (false, r)
    | r => (false, r)
  let body := signBody.2
  let ip := body.takeWhile (fun c => c.isDigit)
  let rest := body.dropWhile (fun c => c.isDigit)
  let mag : Option ℚ :=
    match rest with
    | [] => if ip.isEmpty then none else some (natOfDigits ip)
    | '.' :: fr =>
      if fr.all (fun c => c.isDigit) && !(ip.isEmpty && fr.isEmpty) then
        some ((natOfDigits ip : ℚ) + (natOfDigits fr : ℚ) / (10 : ℚ) ^ fr.length)
      else none
    | _ => none
  mag.map (fun q => if signBody.1 then -q else q)

/-- `np.array([float(x) for x in weights])` under `try/except` (lines 53–56):
all tokens parse, or the whole conversion fails. -/
def parseAll : List (List Char) → Option (List ℚ)
  | [] => some []
  | t :: ts =>
    match parseFloat t, parseAll ts with
    | some q, some qs => some (q :: qs)
    | _, _ => none

/-! ## The input table (`pd.read_csv` result) -/

/-- One CSV row: the first-column label (opaque, line 36 drops it) and the
criterion cells as their `pd.to_numeric(..., errors="coerce")` results
(lines 38–39): `none` is a coerced `NaN` (non-numeric or missing cell). -/
structure Row where
  label : String
  crit : List (Option ℚ)
deriving DecidableEq

/-- The frame read by `pd.read_csv`: rectangular, `ncrit + 1` columns in
total (label column plus `ncrit` criterion columns). -/
structure Table where
  ncrit : ℕ
  rows : List Row
  rect : ∀ r ∈ rows, r.crit.length = ncrit

/-- `data.isnull().values.any()` (line 41): some coerced criterion cell is null. -/
def hasNull (t : Table) : Bool :=
  t.rows.any (fun r => r.crit.any (fun c => c.isNone))

/-- The numeric criterion matrix `data` (lines 36–39) once validation has
ruled out nulls; a null cell is read as `0` (never reached on valid input). -/
def dataOf (t : Table) : List (List ℚ) :=
  t.rows.map (fun r => r.crit.map (fun c => c.getD 0))

/-! ## The validation chain (lines 33–60) -/

/-- The validation chain of `topsis_calculate` (lines 33–60) on the
already-split-and-stripped token lists, returning the message of the first
`raise Exception(...)` that fires, or `none` when all checks pass.  Messages
are byte-for-byte the source's strings (note: the first one has no trailing
period in the source). -/
def firstErrorTok (t : Table) (wtok itok : List (List Char)) : Option String :=
  if t.ncrit + 1 < 3 then some "Input file must contain 3 or more columns"
  else if hasNull t then some "All criteria columns must contain numeric values."
  else if wtok.length ≠ itok.length then some "Weights and impacts count mismatch."
  else if wtok.length ≠ t.ncrit then some "Weights/impacts must match criteria columns."
  else if (parseAll wtok).isNone then some "Weights must be numeric."
  else if itok.any (fun tk => !(tk = ['+'] || tk = ['-'])) then
    some "Impacts must be '+' or '-'."
  else none

/-- The validation chain on the raw strings (the source splits and strips at
lines 44–45 before the count checks). -/
def firstError (t : Table) (weightsStr impactsStr : String) : Option String :=
  firstErrorTok t (tokens weightsStr) (tokens impactsStr)

/-! ## The scoring pipeline (lines 64–92), over `ℝ`

`d` is the numeric matrix `data`, `w` the parsed weight vector, `imps` the
impact token list, `n` the criterion-column count (`data.shape[1]`). -/

/-- `data[i][j]` (0-based), the numeric value of row `i`, criterion `j`. -/
def entry (d : List (List ℚ)) (i j : ℕ) : ℚ := (d.getD i []).getD j 0

/-- `(data ** 2).sum()` for column `j` (inside line 65), exact in `ℚ`. -/
def colSumSq (d : List (List ℚ)) (j : ℕ) : ℚ :=
  (d.map (fun r => (r.getD j 0) ^ 2)).sum

/-- `np.sqrt((data ** 2).sum())` for column `j` (line 65). -/
noncomputable def colNorm (d : List (List ℚ)) (j : ℕ) : ℝ :=
  Real.sqrt ((colSumSq d j : ℚ) : ℝ)

/-- `norm_data[i][j] = data[i][j] / np.sqrt((data ** 2).sum())[j]` (line 65). -/
noncomputable def normVal (d : List (List ℚ)) (i j : ℕ) : ℝ :=
  ((entry d i j : ℚ) : ℝ) / colNorm d j

/-- `weighted_data[i][j] = norm_data[i][j] * weights[j]` (line 68). -/
noncomputable def wVal (d : List (List ℚ)) (w : List ℚ) (i j : ℕ) : ℝ :=
  normVal d i j * ((w.getD j 0 : ℚ) : ℝ)

/-- Column `j` of `weighted_data` (`weighted_data.iloc[:, j]`, lines 76–80). -/
noncomputable def wcol (d : List (List ℚ)) (w : List ℚ) (j : ℕ) : List ℝ :=
  (List.range d.length).map (fun i => wVal d w i j)

/-- pandas `.max()` of a column: maximum of a nonempty list
(the source never takes it on an empty frame within a meaningful run;
`[]` is mapped to `0`). -/
noncomputable def listMax : List ℝ → ℝ
  | [] => 0
  | [x] => x
  | x :: y :: t => max x (listMax (y :: t))

/-- pandas `.min()` of a column, as `listMax`. -/
noncomputable def listMin : List ℝ → ℝ
  | [] => 0
  | [x] => x
  | x :: y :: t => min x (listMin (y :: t))

/-- `ideal_best[j]` (lines 74–80): column max on a `'+'` impact, column min
otherwise. -/
noncomputable def idealBest (d : List (List ℚ)) (w : List ℚ)
    (imps : List (List Char)) (j : ℕ) : ℝ :=
  if imps.getD j [] = ['+'] then listMax (wcol d w j) else listMin (wcol d w j)

/-- `ideal_worst[j]` (lines 74–80): column min on a `'+'` impact, column max
otherwise. -/
noncomputable def idealWorst (d : List (List ℚ)) (w : List ℚ)
    (imps : List (List Char)) (j : ℕ) : ℝ :=
  if imps.getD j [] = ['+'] then listMin (wcol d w j) else listMax (wcol d w j)

/-- `dist_best[i] = np.sqrt(((weighted_data - ideal_best) ** 2).sum(axis=1))`
(line 86). -/
noncomputable def distBest (d : List (List ℚ)) (w : List ℚ)
    (imps : List (List Char)) (n i : ℕ) : ℝ :=
  Real.sqrt (((List.range n).map
    (fun j => (wVal d w i j - idealBest d w imps j) ^ 2)).sum)

/-- `dist_worst[i]` (line 87). -/
noncomputable def distWorst (d : List (List ℚ)) (w : List ℚ)
    (imps : List (List Char)) (n i : ℕ) : ℝ :=
  Real.sqrt (((List.range n).map
    (fun j => (wVal d w i j - idealWorst d w imps j) ^ 2)).sum)

/-- `score[i] = dist_worst[i] / (dist_best[i] + dist_worst[i])` (line 89). -/
noncomputable def scoreRow (d : List (List ℚ)) (w : List ℚ)
    (imps : List (List Char)) (n i : ℕ) : ℝ :=
  distWorst d w imps n i / (distBest d w imps n i + distWorst d w imps n i)

/-- The `score` vector (line 89), one entry per row, in row order. -/
noncomputable def scoresList (d : List (List ℚ)) (w : List ℚ)
    (imps : List (List Char)) (n : ℕ) : List ℝ :=
  (List.range d.length).map (scoreRow d w imps n)

/-- pandas `Series.rank(ascending=False, method="dense")` on NaN-free data
(line 92): the rank of a value is one more than the number of *distinct*
values strictly greater than it. -/
noncomputable def denseRankDesc (l : List ℝ) : List ℕ :=
  l.map (fun x => (l.dedup.filter (fun v => x < v)).length + 1)

/-! ## The full engine -/

/-- One output row (lines 91–94): the original row with the two appended
columns `"Topsis Score"` and `"Rank"` (in that order, at the end). -/
structure ScoredRow where
  label : String
  crit : List (Option ℚ)
  topsisScore : ℝ
  rank : ℕ

/-- The two appended output column names, as written at lines 91–92. -/
def outputColumns : List String := ["Topsis Score", "Rank"]

/-- The scores of a run, from the raw inputs. -/
noncomputable def scoresOf (t : Table) (weightsStr impactsStr : String) : List ℝ :=
  scoresList (dataOf t) ((parseAll (tokens weightsStr)).getD [])
    (tokens impactsStr) t.ncrit

/-- The ranks of a run (line 92). -/
noncomputable def ranksOf (t : Table) (weightsStr impactsStr : String) : List ℕ :=
  denseRankDesc (scoresOf t weightsStr impactsStr)

/-- The output rows written by `df.to_csv` (lines 91–94): the original rows,
in order, each extended with its score and rank. -/
noncomputable def okRows (t : Table) (weightsStr impactsStr : String) :
    List ScoredRow :=
  (t.rows.zip ((scoresOf t weightsStr impactsStr).zip
      (ranksOf t weightsStr impactsStr))).map
    (fun p => ⟨p.1.label, p.1.crit, p.2.1, p.2.2⟩)

/-- `topsis_calculate` (lines 30–94): raise the first validation error, or
produce the scored table. -/
noncomputable def topsis_calculate (t : Table) (weightsStr impactsStr : String) :
    Except String (List ScoredRow) :=
  match firstError t weightsStr impactsStr with
  | some msg => Except.error msg
  | none => Except.ok (okRows t weightsStr impactsStr)

/-! ## Concrete inputs used to instantiate the theorems -/

/-- A small valid input: two alternatives, two criteria,
`data = [[3, 4], [4, 3]]`.  Both column norms are `5`. -/
def exTable : Table :=
  ⟨2, [⟨"A", [some 3, some 4]⟩, ⟨"B", [some 4, some 3]⟩], by decide⟩

/-- A two-column table (label plus one criterion): fails the shape check. -/
def twoColTable : Table := ⟨1, [⟨"A", [some 1]⟩], by decide⟩

/-- A valid input whose first criterion column is identically zero, so its
column norm is zero. -/
def zeroColTable : Table :=
  ⟨2, [⟨"A", [some 0, some 1]⟩, ⟨"B", [some 0, some 2]⟩], by decide⟩

/-! ## Validation-layer lemmas -/

lemma hasNull_eq_true_iff (t : Table) :
    hasNull t = true ↔ ∃ r ∈ t.rows, ∃ c ∈ r.crit, c = none := by
  simp [hasNull, Option.isNone_iff_eq_none]

lemma parseAll_eq_none_iff (ts : List (List Char)) :
    parseAll ts = none ↔ ∃ tk ∈ ts, parseFloat tk = none := by
  induction ts with
  | nil => simp [parseAll]
  | cons t ts ih =>
    cases h1 : parseFloat t <;> cases h2 : parseAll ts <;>
      simp_all [parseAll, h1, h2]

lemma anyBadImpact_iff (itok : List (List Char)) :
    (itok.any (fun tk => !(tk = ['+'] || tk = ['-']))) = true ↔
      ∃ tk ∈ itok, tk ≠ ['+'] ∧ tk ≠ ['-'] := by
  simp

/-- **C1** (amended: the first message carries no trailing period in the
code).  The six validation checks run in the fixed documented order and the
run fails with exactly the message of the first check that applies:
(1) fewer than 3 columns, (2) a non-numeric criterion cell, (3) weight
count ≠ impact count, (4) weight/impact count ≠ criterion-column count,
(5) a non-numeric weight token, (6) an impact token other than `'+'`/`'-'`;
and the run passes validation exactly when none of the six applies. -/
theorem validation_order_and_messages (t : Table) (ws is : String) :
    (firstError t ws is = some "Input file must contain 3 or more columns" ↔
      t.ncrit + 1 < 3) ∧
    (firstError t ws is = some "All criteria columns must contain numeric values." ↔
      (¬ t.ncrit + 1 < 3) ∧ (∃ r ∈ t.rows, ∃ c ∈ r.crit, c = none)) ∧
    (firstError t ws is = some "Weights and impacts count mismatch." ↔
      (¬ t.ncrit + 1 < 3) ∧ (¬ ∃ r ∈ t.rows, ∃ c ∈ r.crit, c = none) ∧
      (tokens ws).length ≠ (tokens is).length) ∧
    (firstError t ws is = some "Weights/impacts must match criteria columns." ↔
      (¬ t.ncrit + 1 < 3) ∧ (¬ ∃ r ∈ t.rows, ∃ c ∈ r.crit, c = none) ∧
      (tokens ws).length = (tokens is).length ∧ (tokens ws).length ≠ t.ncrit) ∧
    (firstError t ws is = some "Weights must be numeric." ↔
      (¬ t.ncrit + 1 < 3) ∧ (¬ ∃ r ∈ t.rows, ∃ c ∈ r.crit, c = none) ∧
      (tokens ws).length = (tokens is).length ∧ (tokens ws).length = t.ncrit ∧
      (∃ tk ∈ tokens ws, parseFloat tk = none)) ∧
    (firstError t ws is = some "Impacts must be '+' or '-'." ↔
      (¬ t.ncrit + 1 < 3) ∧ (¬ ∃ r ∈ t.rows, ∃ c ∈ r.crit, c = none) ∧
      (tokens ws).length = (tokens is).length ∧ (tokens ws).length = t.ncrit ∧
      (¬ ∃ tk ∈ tokens ws, parseFloat tk = none) ∧
      (∃ tk ∈ tokens is, tk ≠ ['+'] ∧ tk ≠ ['-'])) ∧
    (firstError t ws is = none ↔
      (¬ t.ncrit + 1 < 3) ∧ (¬ ∃ r ∈ t.rows, ∃ c ∈ r.crit, c = none) ∧
      (tokens ws).length = (tokens is).length ∧ (tokens ws).length = t.ncrit ∧
      (¬ ∃ tk ∈ tokens ws, parseFloat tk = none) ∧
      (¬ ∃ tk ∈ tokens is, tk ≠ ['+'] ∧ tk ≠ ['-'])) := by
  have hnull := hasNull_eq_true_iff t
  have hpar := parseAll_eq_none_iff (tokens ws)
  have hbad := anyBadImpact_iff (tokens is)
  unfold firstError firstErrorTok
  split_ifs with h1 h2 h3 h4 h5 h6 <;>
    simp_all [Option.isNone_iff_eq_none]
  all_goals assumption

/-- **C1, counterexample to the claim as stated**: on a two-column table the
code raises `"Input file must contain 3 or more columns"`, not the
documented message with a trailing period. -/
theorem first_message_lacks_period :
    firstError twoColTable "1" "+" =
      some "Input file must contain 3 or more columns" ∧
    firstError twoColTable "1" "+" ≠
      some "Input file must contain 3 or more columns." := by
  constructor <;> decide

/-- **C8**: when validation fails, the run raises that first message and no
output table of any kind is produced. -/
theorem validation_failure_yields_no_output (t : Table) (ws is : String)
    (msg : String) (h : firstError t ws is = some msg) :
    topsis_calculate t ws is = Except.error msg ∧
    ∀ out, topsis_calculate t ws is ≠ Except.ok out := by
  unfold topsis_calculate
  rw [h]
  exact ⟨rfl, fun out hc => Except.noConfusion hc⟩

/-- **C8, witness**: the two-column table fails validation and produces no
output rows. -/
theorem validation_failure_yields_no_output_witness :
    topsis_calculate twoColTable "1" "+" =
      Except.error "Input file must contain 3 or more columns" ∧
    ∀ out, topsis_calculate twoColTable "1" "+" ≠ Except.ok out :=
  validation_failure_yields_no_output twoColTable "1" "+"
    "Input file must contain 3 or more columns" (by decide)

/-- `np.array([float(x) for x in weights])` keeps one weight per token. -/
lemma parseAll_length : ∀ (ts : List (List Char)) (l : List ℚ),
    parseAll ts = some l → l.length = ts.length := by
  intro ts
  induction ts with
  | nil => intro l h; simp [parseAll] at h; simp [← h]
  | cons t ts ih =>
    intro l h
    cases h1 : parseFloat t <;> cases h2 : parseAll ts <;>
      rw [parseAll, h1, h2] at h <;> cases h
    simp [ih _ h2]

/-- **C9, counterexample to the claim as stated**: the weight string
`"0,1"` passes every validation (so the run reaches the normalization
step), yet its parsed weights are not all positive. -/
theorem nonpositive_weight_reaches_algorithm :
    firstError exTable "0,1" "+,-" = none ∧
    parseAll (tokens "0,1") = some [0, 1] ∧
    ¬ ∀ q ∈ [(0 : ℚ), 1], 0 < q := by
  refine ⟨by decide, by decide, by decide⟩

/-- **C9** (amended: positivity is not enforced).  On entry to the scoring
algorithm the weight vector is exactly the numeric parse of the weight
tokens, with one weight per criterion column; the code never checks the
sign of a weight, so zero or negative parsed weights also reach the
normalization step. -/
theorem weights_parsed_numeric_on_success (t : Table) (ws is : String)
    (h : firstError t ws is = none) :
    ∃ l : List ℚ, parseAll (tokens ws) = some l ∧ l.length = t.ncrit := by
  unfold firstError firstErrorTok at h
  split_ifs at h with h1 h2 h3 h4 h5 h6
  cases hp : parseAll (tokens ws) with
  | none => simp [hp] at h5
  | some l =>
    refine ⟨l, rfl, ?_⟩
    rw [parseAll_length _ _ hp]
    exact not_ne_iff.mp h4

/-- **C9, amended claim witness**: on the concrete valid run with weights
`"1,1"` the parsed weight vector exists and matches the column count. -/
theorem weights_parsed_numeric_on_success_witness :
    ∃ l : List ℚ, parseAll (tokens "1,1") = some l ∧ l.length = exTable.ncrit :=
  weights_parsed_numeric_on_success exTable "1,1" "+,+" (by decide)

/-! ## Stripping and splitting lemmas (for C10) -/

lemma splitOnComma_ne_nil (l : List Char) : splitOnComma l ≠ [] := by
  induction l with
  | nil => simp [splitOnComma]
  | cons c r ih =>
    by_cases hc : c = ','
    · subst hc; simp [splitOnComma]
    · rw [splitOnComma.eq_def]
      cases hs : splitOnComma r with
      | nil => exact absurd hs ih
      | cons t ts => simp [hc, hs]

lemma splitOnComma_cons_comma (r : List Char) :
    splitOnComma (',' :: r) = [] :: splitOnComma r := rfl

lemma splitOnComma_cons_ne (c : Char) (r : List Char) (hc : c ≠ ',')
    (t : List Char) (ts : List (List Char)) (hs : splitOnComma r = t :: ts) :
    splitOnComma (c :: r) = (c :: t) :: ts := by
  rw [splitOnComma.eq_def]
  simp [hc, hs]

lemma mem_splitOnComma_no_comma (l : List Char) :
    ∀ x ∈ splitOnComma l, ',' ∉ x := by
  induction l with
  | nil => simp [splitOnComma]
  | cons c r ih =>
    by_cases hc : c = ','
    · subst hc
      rw [splitOnComma_cons_comma]
      intro x hx
      rcases List.mem_cons.mp hx with h | h
      · simp [h]
      · exact ih x h
    · obtain ⟨t, ts, hs⟩ : ∃ t ts, splitOnComma r = t :: ts := by
        cases hsp : splitOnComma r with
        | nil => exact absurd hsp (splitOnComma_ne_nil r)
        | cons a b => exact ⟨a, b, rfl⟩
      rw [splitOnComma_cons_ne c r hc t ts hs]
      intro x hx
      rcases List.mem_cons.mp hx with h | h
      · subst h
        intro hmem
        rcases List.mem_cons.mp hmem with h' | h'
        · exact hc h'.symm
        · exact ih t (by rw [hs]; exact List.mem_cons_self _ _) h'
      · exact ih x (by rw [hs]; exact List.mem_cons_of_mem _ h)

lemma splitOnComma_append_comma (x r : List Char) (hx : ',' ∉ x) :
    splitOnComma (x ++ ',' :: r) = x :: splitOnComma r := by
  induction x with
  | nil => rfl
  | cons c t ih =>
    have hc : c ≠ ',' := fun h => hx (by simp [h])
    have ht : ',' ∉ t := fun h => hx (by simp [h])
    rw [List.cons_append]
    exact splitOnComma_cons_ne c _ hc t _ (ih ht)

lemma splitOnComma_no_comma (x : List Char) (hx : ',' ∉ x) :
    splitOnComma x = [x] := by
  induction x with
  | nil => rfl
  | cons c t ih =>
    have hc : c ≠ ',' := fun h => hx (by simp [h])
    have ht : ',' ∉ t := fun h => hx (by simp [h])
    exact splitOnComma_cons_ne c t hc t [] (ih ht)

lemma splitOnComma_intercalate : ∀ (ls : List (List Char)), ls ≠ [] →
    (∀ x ∈ ls, ',' ∉ x) → splitOnComma (intercalateComma ls) = ls := by
  intro ls
  induction ls with
  | nil => intro h; exact absurd rfl h
  | cons x ys ih =>
    intro _ hcf
    cases ys with
    | nil =>
      rw [intercalateComma, splitOnComma_no_comma x (hcf x (by simp))]
    | cons y ts =>
      rw [intercalateComma,
        splitOnComma_append_comma x _ (hcf x (by simp)),
        ih (by simp) (fun z hz => hcf z (by simp [hz]))]

lemma dropWhile_idem (p : Char → Bool) (l : List Char) :
    (l.dropWhile p).dropWhile p = l.dropWhile p := by
  induction l with
  | nil => rfl
  | cons a t ih =>
    by_cases h : p a <;> simp [List.dropWhile_cons, h, ih]

lemma dropWhile_append_not (p : Char → Bool) (a : Char) (h : p a = false) :
    ∀ xs : List Char, (xs ++ [a]).dropWhile p = xs.dropWhile p ++ [a] := by
  intro xs
  induction xs with
  | nil => simp [List.dropWhile_cons, h]
  | cons c t ih =>
    by_cases hc : p c <;> simp [List.dropWhile_cons, hc, ih]

lemma dropTail_cons_not (c : Char) (t : List Char) (h : isWS c = false) :
    dropTail (c :: t) = c :: dropTail t := by
  unfold dropTail
  rw [show (c :: t).reverse = t.reverse ++ [c] from by simp,
    dropWhile_append_not isWS c h]
  simp

lemma dropTail_idem (l : List Char) : dropTail (dropTail l) = dropTail l := by
  unfold dropTail
  rw [List.reverse_reverse, dropWhile_idem]

lemma dropWhile_head_false (p : Char → Bool) (l : List Char) (c : Char)
    (t : List Char) (h : l.dropWhile p = c :: t) : p c = false := by
  induction l with
  | nil => cases h
  | cons a r ih =>
    by_cases ha : p a
    · rw [List.dropWhile_cons, if_pos ha] at h
      exact ih h
    · rw [List.dropWhile_cons, if_neg ha] at h
      cases h
      exact Bool.not_eq_true _ ▸ (by simpa using ha)

lemma trim_idem (l : List Char) : trim (trim l) = trim l := by
  unfold trim
  cases h : l.dropWhile isWS with
  | nil => simp [dropTail]
  | cons c t =>
    have hc : isWS c = false := dropWhile_head_false isWS l c t h
    rw [dropTail_cons_not c t hc, List.dropWhile_cons, hc]
    simp only [Bool.false_eq_true, if_false]
    rw [dropTail_cons_not c _ hc, dropTail_idem]

lemma mem_trim (l : List Char) (a : Char) (h : a ∈ trim l) : a ∈ l := by
  unfold trim dropTail at h
  have h1 : a ∈ (l.dropWhile isWS).reverse.dropWhile isWS := by
    simpa using h
  have h2 : a ∈ (l.dropWhile isWS).reverse :=
    (List.dropWhile_sublist _).subset h1
  have h3 : a ∈ l.dropWhile isWS := by simpa using h2
  exact (List.dropWhile_sublist _).subset h3

lemma trim_no_comma (l : List Char) (h : ',' ∉ l) : ',' ∉ trim l :=
  fun hmem => h (mem_trim l ',' hmem)

lemma tokens_canon (s : String) : tokens (canon s) = tokens s := by
  have hne : (splitOnComma s.toList).map trim ≠ [] := by
    intro h
    exact splitOnComma_ne_nil s.toList (List.map_eq_nil_iff.mp h)
  have hcf : ∀ x ∈ (splitOnComma s.toList).map trim, ',' ∉ x := by
    intro x hx
    rcases List.mem_map.mp hx with ⟨y, hy, rfl⟩
    exact trim_no_comma y (mem_splitOnComma_no_comma s.toList y hy)
  show ((splitOnComma (String.mk
      (intercalateComma ((splitOnComma s.toList).map trim))).toList).map trim) =
    (splitOnComma s.toList).map trim
  rw [show (String.mk (intercalateComma ((splitOnComma s.toList).map trim))).toList
      = intercalateComma ((splitOnComma s.toList).map trim) from rfl,
    splitOnComma_intercalate _ hne hcf, List.map_map]
  exact List.map_congr_left (fun x _ => trim_idem x)

/-- **C10**: the engine strips each comma-separated weights/impacts token
before any validation or parsing, so any input strings give exactly the
result of their whitespace-free forms; in particular `" 1 , 2 "` and
`" + , - "` canonicalise to `"1,2"` and `"+,-"`. -/
theorem tokens_whitespace_insensitive :
    (∀ (t : Table) (ws is : String),
      topsis_calculate t (canon ws) (canon is) = topsis_calculate t ws is) ∧
    canon " 1 , 2 " = "1,2" ∧ canon " + , - " = "+,-" := by
  refine ⟨fun t ws is => ?_, by decide, by decide⟩
  unfold topsis_calculate firstError okRows ranksOf scoresOf
  rw [tokens_canon, tokens_canon]

/-! ## Output-shape lemmas (for C4) -/

lemma scoresOf_length (t : Table) (ws is : String) :
    (scoresOf t ws is).length = t.rows.length := by
  simp [scoresOf, scoresList, dataOf]

lemma ranksOf_length (t : Table) (ws is : String) :
    (ranksOf t ws is).length = t.rows.length := by
  simp [ranksOf, denseRankDesc, scoresOf_length]

lemma topsis_ok_iff (t : Table) (ws is : String) (out : List ScoredRow) :
    topsis_calculate t ws is = Except.ok out ↔
      firstError t ws is = none ∧ out = okRows t ws is := by
  unfold topsis_calculate
  cases hfe : firstError t ws is with
  | some m => simp
  | none => simp [eq_comm]

/-- **C4**: a successful run returns exactly one output row per input row,
in the same order, each carrying the original label and original criterion
cells unchanged, extended by the two appended columns, whose names in the
written file are `"Topsis Score"` and `"Rank"` (in that order, at the end). -/
theorem output_preserves_rows_and_appends (t : Table) (ws is : String)
    (out : List ScoredRow) (h : topsis_calculate t ws is = Except.ok out) :
    out.length = t.rows.length ∧
    out.map (fun r => (r.label, r.crit)) =
      t.rows.map (fun r => (r.label, r.crit)) ∧
    outputColumns = ["Topsis Score", "Rank"] := by
  obtain ⟨-, rfl⟩ := (topsis_ok_iff t ws is out).mp h
  have hlen : ((scoresOf t ws is).zip (ranksOf t ws is)).length = t.rows.length := by
    simp [List.length_zip, scoresOf_length, ranksOf_length]
  refine ⟨?_, ?_, rfl⟩
  · simp [okRows, List.length_zip, hlen]
  · unfold okRows
    rw [List.map_map]
    have : ((fun r : ScoredRow => (r.label, r.crit)) ∘
        fun p : Row × ℝ × ℕ => (⟨p.1.label, p.1.crit, p.2.1, p.2.2⟩ : ScoredRow)) =
        (fun r : Row => (r.label, r.crit)) ∘ Prod.fst := rfl
    rw [this, ← List.map_map, List.map_fst_zip _ _ hlen.ge]

/-- **C4, witness**: the concrete valid run on `exTable` preserves its two
rows and appends the two named columns. -/
theorem output_preserves_rows_and_appends_witness :
    (okRows exTable "1,1" "+,+").length = exTable.rows.length ∧
    (okRows exTable "1,1" "+,+").map (fun r => (r.label, r.crit)) =
      exTable.rows.map (fun r => (r.label, r.crit)) ∧
    outputColumns = ["Topsis Score", "Rank"] :=
  output_preserves_rows_and_appends exTable "1,1" "+,+" _
    ((topsis_ok_iff exTable "1,1" "+,+" _).mpr ⟨by decide, rfl⟩)

/-! ## Indexing helper lemmas -/

lemma getD_map_lt {α β : Type} (f : α → β) (l : List α) (j : ℕ)
    (h : j < l.length) (d : β) (d' : α) :
    (l.map f).getD j d = f (l.getD j d') := by
  induction l generalizing j with
  | nil => cases h
  | cons a t ih =>
    cases j with
    | zero => rfl
    | succ k => exact ih k (by simpa using h)

lemma getD_range_map {α : Type} (f : ℕ → α) (n i : ℕ) (h : i < n) (d : α) :
    ((List.range n).map f).getD i d = f i := by
  rw [getD_map_lt f _ i (by simpa using h) d 0]
  congr 1
  rw [List.getD_eq_getElem _ _ (by simpa using h)]
  exact List.getElem_range _ _

/-! ## C5: the divide-by-zero cases are not handled -/

/-- **C5, counterexample to the claim as stated**: `zeroColTable` passes all
six validations, yet its first criterion column has zero norm, so the
normalization at line 65 divides by zero (NaN in the implementation) and no
handling exists in the code. -/
theorem zero_norm_column_divides_by_zero :
    firstError zeroColTable "1,1" "+,+" = none ∧
    0 < zeroColTable.ncrit ∧
    colNorm (dataOf zeroColTable) 0 = 0 := by
  refine ⟨by decide, by decide, ?_⟩
  have h : colSumSq (dataOf zeroColTable) 0 = 0 := by
    simp [colSumSq, dataOf, zeroColTable]
  rw [colNorm, h]
  simp

/-- **C5** (amended: division by zero is *not* handled).  The code contains
no branch for a degenerate column: on any input that passes validation, a
criterion column whose cells are all `0` has column norm exactly `0`, so the
normalization `data / np.sqrt((data ** 2).sum())` at line 65 divides by zero
there (producing NaN scores in the floating-point implementation); the same
holds for the score quotient when both distances vanish. -/
theorem zero_column_gives_zero_norm (t : Table) (ws is : String) (j : ℕ)
    (hok : firstError t ws is = none) (hj : j < t.ncrit)
    (hz : ∀ r ∈ t.rows, r.crit.getD j none = some 0) :
    colNorm (dataOf t) j = 0 := by
  have h : colSumSq (dataOf t) j = 0 := by
    apply List.sum_eq_zero
    intro x hx
    rcases List.mem_map.mp hx with ⟨rr, hrr, rfl⟩
    rcases List.mem_map.mp hrr with ⟨r, hr, rfl⟩
    have hlt : j < r.crit.length := by
      by_contra hge
      have hnone : r.crit.getD j none = none :=
        List.getD_eq_default _ _ (Nat.le_of_not_lt hge)
      exact Option.noConfusion ((hz r hr).symm.trans hnone)
    rw [getD_map_lt _ _ _ hlt 0 none, hz r hr]
    norm_num
  rw [colNorm, h]
  simp

/-- **C5, amended claim witness**: on `zeroColTable` (valid, first column
identically zero) the column norm is `0`. -/
theorem zero_column_gives_zero_norm_witness :
    colNorm (dataOf zeroColTable) 0 = 0 :=
  zero_column_gives_zero_norm zeroColTable "1,1" "+,+" 0
    (by decide) (by decide) (by decide)

/-! ## Concrete evaluation of the pipeline on `exTable` -/

lemma ex_w : (parseAll (tokens "1,1")).getD [] = [1, 1] := rfl

lemma ex_imps : tokens "+,+" = [['+'], ['+']] := by decide

lemma ex_data : dataOf exTable = [[3, 4], [4, 3]] := by decide

lemma ex_colNorm0 : colNorm (dataOf exTable) 0 = 5 := by
  have h : colSumSq (dataOf exTable) 0 = 25 := by
    rw [ex_data]; norm_num [colSumSq]
  rw [colNorm, h]
  push_cast
  rw [show (25 : ℝ) = 5 ^ 2 by norm_num, Real.sqrt_sq (by norm_num : (0:ℝ) ≤ 5)]

lemma ex_colNorm1 : colNorm (dataOf exTable) 1 = 5 := by
  have h : colSumSq (dataOf exTable) 1 = 25 := by
    rw [ex_data]; norm_num [colSumSq]
  rw [colNorm, h]
  push_cast
  rw [show (25 : ℝ) = 5 ^ 2 by norm_num, Real.sqrt_sq (by norm_num : (0:ℝ) ≤ 5)]

lemma ex_w00 : wVal (dataOf exTable) [1, 1] 0 0 = 3 / 5 := by
  rw [wVal, normVal, ex_colNorm0]
  norm_num [entry, ex_data]

lemma ex_w10 : wVal (dataOf exTable) [1, 1] 1 0 = 4 / 5 := by
  rw [wVal, normVal, ex_colNorm0]
  norm_num [entry, ex_data]

lemma ex_w01 : wVal (dataOf exTable) [1, 1] 0 1 = 4 / 5 := by
  rw [wVal, normVal, ex_colNorm1]
  norm_num [entry, ex_data]

lemma ex_w11 : wVal (dataOf exTable) [1, 1] 1 1 = 3 / 5 := by
  rw [wVal, normVal, ex_colNorm1]
  norm_num [entry, ex_data]

lemma ex_wcol0 : wcol (dataOf exTable) [1, 1] 0 = [3 / 5, 4 / 5] := by
  rw [wcol, show (dataOf exTable).length = 2 from rfl,
    show List.range 2 = [0, 1] from rfl]
  simp only [List.map]
  rw [ex_w00, ex_w10]

lemma ex_wcol1 : wcol (dataOf exTable) [1, 1] 1 = [4 / 5, 3 / 5] := by
  rw [wcol, show (dataOf exTable).length = 2 from rfl,
    show List.range 2 = [0, 1] from rfl]
  simp only [List.map]
  rw [ex_w01, ex_w11]

lemma ex_iworst0 : idealWorst (dataOf exTable) [1, 1] (tokens "+,+") 0 = 3 / 5 := by
  rw [idealWorst, ex_imps,
    show ([['+'], ['+']] : List (List Char)).getD 0 [] = ['+'] from rfl,
    if_pos rfl, ex_wcol0]
  norm_num [listMin, min_def]

lemma ex_iworst1 : idealWorst (dataOf exTable) [1, 1] (tokens "+,+") 1 = 3 / 5 := by
  rw [idealWorst, ex_imps,
    show ([['+'], ['+']] : List (List Char)).getD 1 [] = ['+'] from rfl,
    if_pos rfl, ex_wcol1]
  norm_num [listMin, min_def]

lemma ex_dworst0 : distWorst (dataOf exTable) [1, 1] (tokens "+,+") 2 0 ≠ 0 := by
  rw [distWorst, Real.sqrt_ne_zero', show List.range 2 = [0, 1] from rfl]
  simp only [List.map, List.sum_cons, List.sum_nil]
  rw [ex_w00, ex_w01, ex_iworst0, ex_iworst1]
  norm_num

lemma ex_dworst1 : distWorst (dataOf exTable) [1, 1] (tokens "+,+") 2 1 ≠ 0 := by
  rw [distWorst, Real.sqrt_ne_zero', show List.range 2 = [0, 1] from rfl]
  simp only [List.map, List.sum_cons, List.sum_nil]
  rw [ex_w10, ex_w11, ex_iworst0, ex_iworst1]
  norm_num

/-! ## C7: scores lie in the unit interval -/

lemma scoresOf_getD (t : Table) (ws is : String) (i : ℕ)
    (hi : i < t.rows.length) :
    (scoresOf t ws is).getD i 0 =
      scoreRow (dataOf t) ((parseAll (tokens ws)).getD [])
        (tokens is) t.ncrit i := by
  unfold scoresOf scoresList
  exact getD_range_map _ _ _ (by simpa [dataOf] using hi) 0

/-- **C7**: on a valid input in which no alternative sits at zero distance
from both the ideal-best and the ideal-worst point, every row's score
lies in `[0, 1]`. -/
theorem score_in_unit_interval (t : Table) (ws is : String)
    (hok : firstError t ws is = none)
    (hnd : ∀ i < t.rows.length,
      ¬(distBest (dataOf t) ((parseAll (tokens ws)).getD [])
          (tokens is) t.ncrit i = 0 ∧
        distWorst (dataOf t) ((parseAll (tokens ws)).getD [])
          (tokens is) t.ncrit i = 0)) :
    ∀ i < t.rows.length,
      0 ≤ (scoresOf t ws is).getD i 0 ∧ (scoresOf t ws is).getD i 0 ≤ 1 := by
  intro i hi
  rw [scoresOf_getD t ws is i hi, scoreRow]
  set B := distBest (dataOf t) ((parseAll (tokens ws)).getD [])
    (tokens is) t.ncrit i with hBdef
  set W := distWorst (dataOf t) ((parseAll (tokens ws)).getD [])
    (tokens is) t.ncrit i with hWdef
  have hB : 0 ≤ B := Real.sqrt_nonneg _
  have hW : 0 ≤ W := Real.sqrt_nonneg _
  have hsum : 0 < B + W := by
    rcases lt_or_eq_of_le (add_nonneg hB hW) with h | h
    · exact h
    · exact absurd ⟨le_antisymm (by linarith) hB, le_antisymm (by linarith) hW⟩
        (hnd i hi)
  exact ⟨div_nonneg hW hsum.le, by rw [div_le_one hsum]; linarith⟩

/-- **C7, witness**: on the concrete valid run on `exTable` (where no row is
at zero distance from both ideal points) the score of row `0` is in `[0, 1]`. -/
theorem score_in_unit_interval_witness :
    0 ≤ (scoresOf exTable "1,1" "+,+").getD 0 0 ∧
    (scoresOf exTable "1,1" "+,+").getD 0 0 ≤ 1 :=
  score_in_unit_interval exTable "1,1" "+,+" (by decide)
    (fun i hi => by
      have hlen : exTable.rows.length = 2 := rfl
      have h2 : i = 0 ∨ i = 1 := by omega
      rcases h2 with rfl | rfl
      · rintro ⟨-, hw⟩; exact ex_dworst0 hw
      · rintro ⟨-, hw⟩; exact ex_dworst1 hw)
    0 (by decide)

/-! ## C6: rescaling all weights by a positive constant -/

lemma getD_map_mul (w : List ℚ) (c : ℚ) (j : ℕ) :
    (w.map (fun x => c * x)).getD j 0 = c * w.getD j 0 := by
  by_cases h : j < w.length
  · rw [getD_map_lt _ _ _ h 0 0]
  · rw [List.getD_eq_default _ _ (by simpa using Nat.le_of_not_lt h),
      List.getD_eq_default _ _ (Nat.le_of_not_lt h), mul_zero]

lemma wVal_scale (d : List (List ℚ)) (w : List ℚ) (c : ℚ) (i j : ℕ) :
    wVal d (w.map (fun x => c * x)) i j = (c : ℝ) * wVal d w i j := by
  rw [wVal, wVal, getD_map_mul]
  push_cast
  ring

lemma wcol_scale (d : List (List ℚ)) (w : List ℚ) (c : ℚ) (j : ℕ) :
    wcol d (w.map (fun x => c * x)) j =
      (wcol d w j).map (fun x => (c : ℝ) * x) := by
  rw [wcol, wcol, List.map_map]
  exact List.map_congr_left (fun i _ => wVal_scale d w c i j)

lemma listMax_cons (x : ℝ) (t : List ℝ) (ht : t ≠ []) :
    listMax (x :: t) = max x (listMax t) := by
  cases t with
  | nil => exact absurd rfl ht
  | cons y t' => rfl

lemma listMin_cons (x : ℝ) (t : List ℝ) (ht : t ≠ []) :
    listMin (x :: t) = min x (listMin t) := by
  cases t with
  | nil => exact absurd rfl ht
  | cons y t' => rfl

lemma listMax_scale (c : ℝ) (hc : 0 ≤ c) :
    ∀ l : List ℝ, listMax (l.map (fun x => c * x)) = c * listMax l := by
  intro l
  induction l with
  | nil => simp [listMax]
  | cons x t ih =>
    cases t with
    | nil => simp [listMax]
    | cons y t' =>
      calc listMax ((x :: y :: t').map fun v => c * v)
          = max (c * x) (listMax ((y :: t').map fun v => c * v)) := by
            rw [List.map_cons]
            exact listMax_cons _ _ (by simp)
        _ = max (c * x) (c * listMax (y :: t')) := by rw [ih]
        _ = c * max x (listMax (y :: t')) := (mul_max_of_nonneg _ _ hc).symm
        _ = c * listMax (x :: y :: t') := by
            rw [listMax_cons x (y :: t') (by simp)]

lemma listMin_scale (c : ℝ) (hc : 0 ≤ c) :
    ∀ l : List ℝ, listMin (l.map (fun x => c * x)) = c * listMin l := by
  intro l
  induction l with
  | nil => simp [listMin]
  | cons x t ih =>
    cases t with
    | nil => simp [listMin]
    | cons y t' =>
      calc listMin ((x :: y :: t').map fun v => c * v)
          = min (c * x) (listMin ((y :: t').map fun v => c * v)) := by
            rw [List.map_cons]
            exact listMin_cons _ _ (by simp)
        _ = min (c * x) (c * listMin (y :: t')) := by rw [ih]
        _ = c * min x (listMin (y :: t')) := (mul_min_of_nonneg _ _ hc).symm
        _ = c * listMin (x :: y :: t') := by
            rw [listMin_cons x (y :: t') (by simp)]

lemma idealBest_scale (d : List (List ℚ)) (w : List ℚ)
    (imps : List (List Char)) (c : ℚ) (hc : 0 ≤ c) (j : ℕ) :
    idealBest d (w.map (fun x => c * x)) imps j =
      (c : ℝ) * idealBest d w imps j := by
  rw [idealBest, idealBest, wcol_scale]
  split_ifs
  · exact listMax_scale (c : ℝ) (by exact_mod_cast hc) _
  · exact listMin_scale (c : ℝ) (by exact_mod_cast hc) _

lemma idealWorst_scale (d : List (List ℚ)) (w : List ℚ)
    (imps : List (List Char)) (c : ℚ) (hc : 0 ≤ c) (j : ℕ) :
    idealWorst d (w.map (fun x => c * x)) imps j =
      (c : ℝ) * idealWorst d w imps j := by
  rw [idealWorst, idealWorst, wcol_scale]
  split_ifs
  · exact listMin_scale (c : ℝ) (by exact_mod_cast hc) _
  · exact listMax_scale (c : ℝ) (by exact_mod_cast hc) _

lemma distBest_scale (d : List (List ℚ)) (w : List ℚ)
    (imps : List (List Char)) (n i : ℕ) (c : ℚ) (hc : 0 ≤ c) :
    distBest d (w.map (fun x => c * x)) imps n i =
      (c : ℝ) * distBest d w imps n i := by
  rw [distBest, distBest]
  have hterm : ∀ j : ℕ,
      (wVal d (w.map (fun x => c * x)) i j -
        idealBest d (w.map (fun x => c * x)) imps j) ^ 2 =
      (c : ℝ) ^ 2 * (wVal d w i j - idealBest d w imps j) ^ 2 := by
    intro j
    rw [wVal_scale, idealBest_scale d w imps c hc]
    ring
  rw [List.map_congr_left (fun j _ => hterm j), List.sum_map_mul_left,
    Real.sqrt_mul (sq_nonneg _), Real.sqrt_sq (by exact_mod_cast hc)]

lemma distWorst_scale (d : List (List ℚ)) (w : List ℚ)
    (imps : List (List Char)) (n i : ℕ) (c : ℚ) (hc : 0 ≤ c) :
    distWorst d (w.map (fun x => c * x)) imps n i =
      (c : ℝ) * distWorst d w imps n i := by
  rw [distWorst, distWorst]
  have hterm : ∀ j : ℕ,
      (wVal d (w.map (fun x => c * x)) i j -
        idealWorst d (w.map (fun x => c * x)) imps j) ^ 2 =
      (c : ℝ) ^ 2 * (wVal d w i j - idealWorst d w imps j) ^ 2 := by
    intro j
    rw [wVal_scale, idealWorst_scale d w imps c hc]
    ring
  rw [List.map_congr_left (fun j _ => hterm j), List.sum_map_mul_left,
    Real.sqrt_mul (sq_nonneg _), Real.sqrt_sq (by exact_mod_cast hc)]

lemma scoreRow_scale (d : List (List ℚ)) (w : List ℚ)
    (imps : List (List Char)) (n i : ℕ) (c : ℚ) (hc : 0 < c) :
    scoreRow d (w.map (fun x => c * x)) imps n i = scoreRow d w imps n i := by
  rw [scoreRow, scoreRow, distBest_scale d w imps n i c hc.le,
    distWorst_scale d w imps n i c hc.le, ← mul_add,
    mul_div_mul_left _ _ (by exact_mod_cast hc.ne' : (c : ℝ) ≠ 0)]

lemma scoresList_scale (d : List (List ℚ)) (w : List ℚ)
    (imps : List (List Char)) (n : ℕ) (c : ℚ) (hc : 0 < c) :
    scoresList d (w.map (fun x => c * x)) imps n = scoresList d w imps n := by
  unfold scoresList
  exact List.map_congr_left (fun i _ => scoreRow_scale d w imps n i c hc)

/-- **C6**: rescaling every weight by the same positive constant `c` leaves
the whole output — scores and hence ranks — unchanged: a run whose weight
string parses to `c * l` produces exactly the output of a valid run whose
weight string parses to `l`. -/
theorem weight_scaling_invariance (t : Table) (ws ws2 is : String)
    (c : ℚ) (l : List ℚ) (hc : 0 < c)
    (hw : parseAll (tokens ws) = some l)
    (hw2 : parseAll (tokens ws2) = some (l.map (fun x => c * x)))
    (hok : firstError t ws is = none) :
    topsis_calculate t ws2 is = topsis_calculate t ws is := by
  have hlen2 : (tokens ws2).length = (tokens ws).length := by
    rw [← parseAll_length _ _ hw2, ← parseAll_length _ _ hw, List.length_map]
  have hok2 : firstError t ws2 is = none := by
    unfold firstError firstErrorTok at hok ⊢
    split_ifs at hok with h1 h2 h3 h4 h5 h6
    rw [if_neg h1, if_neg h2, if_neg (by rw [hlen2]; exact h3),
      if_neg (by rw [hlen2]; exact h4),
      if_neg (by rw [hw2]; simp), if_neg h6]
  have hsc : scoresOf t ws2 is = scoresOf t ws is := by
    unfold scoresOf
    rw [hw, hw2]
    simp only [Option.getD_some]
    exact scoresList_scale (dataOf t) l (tokens is) t.ncrit c hc
  unfold topsis_calculate
  rw [hok, hok2]
  unfold okRows ranksOf
  rw [hsc]

/-- **C6, witness**: doubling the weights (`"2,2"` against `"1,1"`) on the
concrete valid run gives the identical output. -/
theorem weight_scaling_invariance_witness :
    topsis_calculate exTable "2,2" "+,+" = topsis_calculate exTable "1,1" "+,+" :=
  weight_scaling_invariance exTable "1,1" "2,2" "+,+" 2 [1, 1]
    (by norm_num) rfl
    (by rw [show ([1, 1] : List ℚ).map (fun x => 2 * x) = [2, 2] by norm_num]
        decide)
    (by decide)

/-! ## C2: the score matches the spec's closed formula

The `spec…` definitions below transcribe the formulas of the specification
(§4.1) word for word — normalized entry times weight, column max/min as
ideal points, Euclidean separations, `S⁻ / (S⁺ + S⁻)` — using `Finset`
sums and `sup'`/`inf'` for the `max_i`/`min_i` of the spec text.  They are
to be compared with the list-level pipeline embedded from the code. -/

/-- Spec §4.1: `norm[j] = sqrt(sum over i of data[i][j]^2)`. -/
noncomputable def specNorm (t : Table) (j : ℕ) : ℝ :=
  Real.sqrt (∑ k ∈ Finset.range t.rows.length, ((entry (dataOf t) k j : ℚ) : ℝ) ^ 2)

/-- Spec §4.1: `V[i][j] = (data[i][j] / norm[j]) * weight[j]`. -/
noncomputable def specV (t : Table) (l : List ℚ) (i j : ℕ) : ℝ :=
  ((entry (dataOf t) i j : ℚ) : ℝ) / specNorm t j * ((l.getD j 0 : ℚ) : ℝ)

/-- Spec §4.1: `best[j] = max_i V[i][j]` on a Benefit (`'+'`) impact,
`min_i V[i][j]` on a Cost impact. -/
noncomputable def specBest (t : Table) (l : List ℚ) (itok : List (List Char))
    (hne : (Finset.range t.rows.length).Nonempty) (j : ℕ) : ℝ :=
  if itok.getD j [] = ['+'] then
    (Finset.range t.rows.length).sup' hne (fun k => specV t l k j)
  else (Finset.range t.rows.length).inf' hne (fun k => specV t l k j)

/-- Spec §4.1: `worst[j]`, the reverse of `best[j]`. -/
noncomputable def specWorst (t : Table) (l : List ℚ) (itok : List (List Char))
    (hne : (Finset.range t.rows.length).Nonempty) (j : ℕ) : ℝ :=
  if itok.getD j [] = ['+'] then
    (Finset.range t.rows.length).inf' hne (fun k => specV t l k j)
  else (Finset.range t.rows.length).sup' hne (fun k => specV t l k j)

/-- Spec §4.1: `S+[i] = sqrt(sum_j (V[i][j]-best[j])^2)`. -/
noncomputable def specSplus (t : Table) (l : List ℚ) (itok : List (List Char))
    (hne : (Finset.range t.rows.length).Nonempty) (i : ℕ) : ℝ :=
  Real.sqrt (∑ j ∈ Finset.range t.ncrit, (specV t l i j - specBest t l itok hne j) ^ 2)

/-- Spec §4.1: `S-[i] = sqrt(sum_j (V[i][j]-worst[j])^2)`. -/
noncomputable def specSminus (t : Table) (l : List ℚ) (itok : List (List Char))
    (hne : (Finset.range t.rows.length).Nonempty) (i : ℕ) : ℝ :=
  Real.sqrt (∑ j ∈ Finset.range t.ncrit, (specV t l i j - specWorst t l itok hne j) ^ 2)

/-- Spec §4.1: `score[i] = S-[i] / (S+[i] + S-[i])`. -/
noncomputable def specScore (t : Table) (l : List ℚ) (itok : List (List Char))
    (hne : (Finset.range t.rows.length).Nonempty) (i : ℕ) : ℝ :=
  specSminus t l itok hne i / (specSplus t l itok hne i + specSminus t l itok hne i)

lemma dataOf_length (t : Table) : (dataOf t).length = t.rows.length := by
  simp [dataOf]

lemma rat_cast_list_sum : ∀ l : List ℚ,
    ((l.sum : ℚ) : ℝ) = (l.map (Rat.cast : ℚ → ℝ)).sum := by
  intro l
  induction l with
  | nil => simp
  | cons a t ih =>
    rw [List.sum_cons, List.map_cons, List.sum_cons, ← ih]
    push_cast
    ring

lemma sum_map_eq_range {α : Type} (g : α → ℝ) (dflt : α) : ∀ l : List α,
    (l.map g).sum = ∑ k ∈ Finset.range l.length, g (l.getD k dflt) := by
  intro l
  induction l with
  | nil => simp
  | cons a t ih =>
    rw [List.map_cons, List.sum_cons, ih, List.length_cons, Finset.sum_range_succ']
    simp only [List.getD_cons_succ, List.getD_cons_zero]
    exact add_comm _ _

lemma colNorm_eq_specNorm (t : Table) (j : ℕ) :
    colNorm (dataOf t) j = specNorm t j := by
  rw [colNorm, specNorm]
  congr 1
  rw [colSumSq, rat_cast_list_sum, List.map_map,
    sum_map_eq_range (Rat.cast ∘ fun r => (r.getD j 0) ^ 2) [] (dataOf t),
    dataOf_length]
  refine Finset.sum_congr rfl (fun k _ => ?_)
  simp only [Function.comp_apply]
  rw [entry]
  push_cast
  ring

lemma wVal_eq_specV (t : Table) (l : List ℚ) (i j : ℕ) :
    wVal (dataOf t) l i j = specV t l i j := by
  rw [wVal, normVal, specV, colNorm_eq_specNorm]

lemma listMax_mem : ∀ l : List ℝ, l ≠ [] → listMax l ∈ l := by
  intro l
  induction l with
  | nil => simp
  | cons x t ih =>
    cases t with
    | nil => intro _; simp [listMax]
    | cons y t' =>
      intro _
      rw [listMax_cons x (y :: t') (by simp)]
      rcases max_choice x (listMax (y :: t')) with h | h
      · rw [h]; exact List.mem_cons_self _ _
      · rw [h]; exact List.mem_cons_of_mem _ (ih (by simp))

lemma listMin_mem : ∀ l : List ℝ, l ≠ [] → listMin l ∈ l := by
  intro l
  induction l with
  | nil => simp
  | cons x t ih =>
    cases t with
    | nil => intro _; simp [listMin]
    | cons y t' =>
      intro _
      rw [listMin_cons x (y :: t') (by simp)]
      rcases min_choice x (listMin (y :: t')) with h | h
      · rw [h]; exact List.mem_cons_self _ _
      · rw [h]; exact List.mem_cons_of_mem _ (ih (by simp))

lemma listMax_ge : ∀ (l : List ℝ) (x : ℝ), x ∈ l → x ≤ listMax l := by
  intro l
  induction l with
  | nil => intro x h; cases h
  | cons a t ih =>
    intro x hx
    cases t with
    | nil =>
      rw [List.mem_singleton.mp hx]
      exact le_of_eq rfl
    | cons y t' =>
      rw [listMax_cons a (y :: t') (by simp)]
      rcases List.mem_cons.mp hx with rfl | h
      · exact le_max_left _ _
      · exact le_trans (ih x h) (le_max_right _ _)

lemma listMin_le : ∀ (l : List ℝ) (x : ℝ), x ∈ l → listMin l ≤ x := by
  intro l
  induction l with
  | nil => intro x h; cases h
  | cons a t ih =>
    intro x hx
    cases t with
    | nil =>
      rw [List.mem_singleton.mp hx]
      exact le_of_eq rfl
    | cons y t' =>
      rw [listMin_cons a (y :: t') (by simp)]
      rcases List.mem_cons.mp hx with rfl | h
      · exact min_le_left _ _
      · exact le_trans (min_le_right _ _) (ih x h)

lemma listMax_range_map_eq_sup' (f : ℕ → ℝ) (m : ℕ)
    (hne : (Finset.range m).Nonempty) :
    listMax ((List.range m).map f) = (Finset.range m).sup' hne f := by
  have hm : m ≠ 0 := Finset.nonempty_range_iff.mp hne
  have hlne : (List.range m).map f ≠ [] := by
    simp [List.range_eq_nil, hm]
  apply le_antisymm
  · rcases List.mem_map.mp (listMax_mem _ hlne) with ⟨i, hi, hfi⟩
    rw [← hfi]
    exact Finset.le_sup' f (Finset.mem_range.mpr (List.mem_range.mp hi))
  · rcases Finset.exists_mem_eq_sup' hne f with ⟨b, hb, hsup⟩
    rw [hsup]
    exact listMax_ge _ _
      (List.mem_map.mpr ⟨b, List.mem_range.mpr (Finset.mem_range.mp hb), rfl⟩)

lemma listMin_range_map_eq_inf' (f : ℕ → ℝ) (m : ℕ)
    (hne : (Finset.range m).Nonempty) :
    listMin ((List.range m).map f) = (Finset.range m).inf' hne f := by
  have hm : m ≠ 0 := Finset.nonempty_range_iff.mp hne
  have hlne : (List.range m).map f ≠ [] := by
    simp [List.range_eq_nil, hm]
  apply le_antisymm
  · rcases Finset.exists_mem_eq_inf' hne f with ⟨b, hb, hinf⟩
    rw [hinf]
    exact listMin_le _ _
      (List.mem_map.mpr ⟨b, List.mem_range.mpr (Finset.mem_range.mp hb), rfl⟩)
  · rcases List.mem_map.mp (listMin_mem _ hlne) with ⟨i, hi, hfi⟩
    rw [← hfi]
    exact Finset.inf'_le f (Finset.mem_range.mpr (List.mem_range.mp hi))

lemma wcol_eq_spec (t : Table) (l : List ℚ) (j : ℕ) :
    wcol (dataOf t) l j = (List.range t.rows.length).map (fun k => specV t l k j) := by
  rw [wcol, dataOf_length]
  exact List.map_congr_left (fun i _ => wVal_eq_specV t l i j)

lemma idealBest_eq_spec (t : Table) (l : List ℚ) (itok : List (List Char))
    (hne : (Finset.range t.rows.length).Nonempty) (j : ℕ) :
    idealBest (dataOf t) l itok j = specBest t l itok hne j := by
  rw [idealBest, specBest, wcol_eq_spec]
  split_ifs
  · exact listMax_range_map_eq_sup' _ _ hne
  · exact listMin_range_map_eq_inf' _ _ hne

lemma idealWorst_eq_spec (t : Table) (l : List ℚ) (itok : List (List Char))
    (hne : (Finset.range t.rows.length).Nonempty) (j : ℕ) :
    idealWorst (dataOf t) l itok j = specWorst t l itok hne j := by
  rw [idealWorst, specWorst, wcol_eq_spec]
  split_ifs
  · exact listMin_range_map_eq_inf' _ _ hne
  · exact listMax_range_map_eq_sup' _ _ hne

lemma distBest_eq_spec (t : Table) (l : List ℚ) (itok : List (List Char))
    (hne : (Finset.range t.rows.length).Nonempty) (i : ℕ) :
    distBest (dataOf t) l itok t.ncrit i = specSplus t l itok hne i := by
  rw [distBest, specSplus,
    show (∑ j ∈ Finset.range t.ncrit,
        (specV t l i j - specBest t l itok hne j) ^ 2) =
      ((List.range t.ncrit).map
        (fun j => (specV t l i j - specBest t l itok hne j) ^ 2)).sum from rfl]
  exact congrArg Real.sqrt (congrArg List.sum (List.map_congr_left
    (fun j _ => by rw [wVal_eq_specV, idealBest_eq_spec t l itok hne j])))

lemma distWorst_eq_spec (t : Table) (l : List ℚ) (itok : List (List Char))
    (hne : (Finset.range t.rows.length).Nonempty) (i : ℕ) :
    distWorst (dataOf t) l itok t.ncrit i = specSminus t l itok hne i := by
  rw [distWorst, specSminus,
    show (∑ j ∈ Finset.range t.ncrit,
        (specV t l i j - specWorst t l itok hne j) ^ 2) =
      ((List.range t.ncrit).map
        (fun j => (specV t l i j - specWorst t l itok hne j) ^ 2)).sum from rfl]
  exact congrArg Real.sqrt (congrArg List.sum (List.map_congr_left
    (fun j _ => by rw [wVal_eq_specV, idealWorst_eq_spec t l itok hne j])))

/-- **C2**: on every valid input, the score of row `i` is exactly the spec's
closed formula: `S⁻[i] / (S⁺[i] + S⁻[i])` where
`V[i][j] = (data[i][j]/sqrt(Σ_k data[k][j]²))·weight[j]`, the per-column
ideal best/worst are the column max/min of `V` for a `'+'` impact (reversed
for `'-'`), and `S⁺`, `S⁻` are the Euclidean distances of row `i` of `V`
from the ideal-best and ideal-worst points. -/
theorem score_matches_spec_formula (t : Table) (ws is : String) (l : List ℚ)
    (hok : firstError t ws is = none)
    (hw : parseAll (tokens ws) = some l)
    (i : ℕ) (hi : i < t.rows.length) :
    (scoresOf t ws is).getD i 0 =
      specScore t l (tokens is) ⟨i, Finset.mem_range.mpr hi⟩ i := by
  rw [scoresOf_getD t ws is i hi, hw, Option.getD_some, scoreRow, specScore,
    distBest_eq_spec t l (tokens is) ⟨i, Finset.mem_range.mpr hi⟩ i,
    distWorst_eq_spec t l (tokens is) ⟨i, Finset.mem_range.mpr hi⟩ i]

/-- **C2, witness**: the concrete valid run on `exTable` satisfies the spec
formula at row `0`. -/
theorem score_matches_spec_formula_witness :
    (scoresOf exTable "1,1" "+,+").getD 0 0 =
      specScore exTable [1, 1] (tokens "+,+")
        ⟨0, Finset.mem_range.mpr (by decide)⟩ 0 :=
  score_matches_spec_formula exTable "1,1" "+,+" [1, 1]
    (by decide) rfl 0 (by decide)

/-! ## C3: dense descending ranking -/

lemma list_toFinset_dedup (sc : List ℝ) : sc.dedup.toFinset = sc.toFinset := by
  ext a
  simp [List.mem_dedup]

lemma denseRank_getD (sc : List ℝ) (i : ℕ) (hi : i < sc.length) :
    (denseRankDesc sc).getD i 0 =
      (sc.dedup.filter (fun v => sc.getD i 0 < v)).length + 1 := by
  rw [denseRankDesc, getD_map_lt _ _ _ hi 0 0]

lemma dedup_filter_length_eq_card (sc : List ℝ) (x : ℝ) :
    (sc.dedup.filter (fun v => x < v)).length =
      (sc.toFinset.filter (fun v => x < v)).card := by
  have h1 : (sc.dedup.filter (fun v : ℝ => x < v)).Nodup :=
    sc.nodup_dedup.filter _
  rw [← List.toFinset_card_of_nodup h1, List.toFinset_filter, list_toFinset_dedup]
  congr 1
  exact Finset.filter_congr (fun v _ => by simp)

lemma rank_card_lt (s : Finset ℝ) (x : ℝ) (hx : x ∈ s) :
    (s.filter (fun v => x < v)).card < s.card := by
  apply Finset.card_lt_card
  rw [Finset.ssubset_iff_of_subset (Finset.filter_subset _ _)]
  exact ⟨x, hx, by simp⟩

lemma rank_attain (s : Finset ℝ) : ∀ k, k < s.card →
    ∃ x ∈ s, (s.filter (fun v => x < v)).card = k := by
  intro k
  induction k with
  | zero =>
    intro hk
    have hne : s.Nonempty := Finset.card_pos.mp hk
    refine ⟨s.max' hne, s.max'_mem hne, ?_⟩
    rw [Finset.card_eq_zero, Finset.filter_eq_empty_iff]
    intro v hv
    exact not_lt.mpr (Finset.le_max' s v hv)
  | succ k ih =>
    intro hk
    obtain ⟨x, hx, hgx⟩ := ih (Nat.lt_of_succ_lt hk)
    have hsplit : (s.filter (fun v => x < v)).card +
        (s.filter (fun v => ¬ x < v)).card = s.card :=
      Finset.filter_card_add_filter_neg_card_eq_card _
    have hle : s.filter (fun v => ¬ x < v) =
        insert x (s.filter (fun v => v < x)) := by
      ext v
      simp only [Finset.mem_filter, Finset.mem_insert, not_lt]
      constructor
      · rintro ⟨hv, hvx⟩
        rcases eq_or_lt_of_le hvx with h | h
        · exact Or.inl h
        · exact Or.inr ⟨hv, h⟩
      · rintro (rfl | ⟨hv, h⟩)
        · exact ⟨hx, le_refl _⟩
        · exact ⟨hv, h.le⟩
    have hxnotin : x ∉ s.filter (fun v => v < x) := by simp
    rw [hgx, hle, Finset.card_insert_of_not_mem hxnotin] at hsplit
    have hlt : 0 < (s.filter (fun v => v < x)).card := by omega
    have hne2 : (s.filter (fun v => v < x)).Nonempty := Finset.card_pos.mp hlt
    have hy : (s.filter (fun v => v < x)).max' hne2 ∈ s.filter (fun v => v < x) :=
      Finset.max'_mem _ hne2
    have hys : (s.filter (fun v => v < x)).max' hne2 ∈ s :=
      (Finset.mem_filter.mp hy).1
    have hyx : (s.filter (fun v => v < x)).max' hne2 < x :=
      (Finset.mem_filter.mp hy).2
    refine ⟨(s.filter (fun v => v < x)).max' hne2, hys, ?_⟩
    have hset : s.filter (fun v => (s.filter (fun v => v < x)).max' hne2 < v) =
        insert x (s.filter (fun v => x < v)) := by
      ext v
      simp only [Finset.mem_filter, Finset.mem_insert]
      constructor
      · rintro ⟨hv, hyv⟩
        rcases lt_trichotomy v x with h | h | h
        · exact absurd hyv (not_lt.mpr
            (Finset.le_max' (s.filter (fun w => w < x)) v
              (Finset.mem_filter.mpr ⟨hv, h⟩)))
        · exact Or.inl h
        · exact Or.inr ⟨hv, h⟩
      · rintro (rfl | ⟨hv, h⟩)
        · exact ⟨hx, hyx⟩
        · exact ⟨hv, lt_trans hyx h⟩
    rw [hset, Finset.card_insert_of_not_mem (by simp), hgx]

/-- **C3**: on every valid input the `Rank` column is the dense descending
ranking of the scores: every row whose score is the maximum has rank `1`,
equal scores share a rank, the set of rank values is exactly the run of
integers `1..K` for some `K` (no gaps), and each row's rank is one more
than the number of distinct scores strictly greater than its own — i.e.
its 1-based position among the distinct scores sorted descending. -/
theorem rank_is_dense_descending (t : Table) (ws is : String)
    (hok : firstError t ws is = none) :
    (∀ i, i < (ranksOf t ws is).length →
      (scoresOf t ws is).getD i 0 = listMax (scoresOf t ws is) →
      (ranksOf t ws is).getD i 0 = 1) ∧
    (∀ i j, i < (ranksOf t ws is).length → j < (ranksOf t ws is).length →
      (scoresOf t ws is).getD i 0 = (scoresOf t ws is).getD j 0 →
      (ranksOf t ws is).getD i 0 = (ranksOf t ws is).getD j 0) ∧
    (∃ K, ∀ r, r ∈ ranksOf t ws is ↔ 1 ≤ r ∧ r ≤ K) ∧
    (∀ i, i < (ranksOf t ws is).length →
      (ranksOf t ws is).getD i 0 =
        ((scoresOf t ws is).toFinset.filter
          (fun v => (scoresOf t ws is).getD i 0 < v)).card + 1) := by
  set sc := scoresOf t ws is with hsc
  have hrk : ranksOf t ws is = denseRankDesc sc := rfl
  refine ⟨?_, ?_, ?_, ?_⟩
  · intro i hi hmax
    rw [hrk] at hi ⊢
    have hi' : i < sc.length := by simpa [denseRankDesc] using hi
    rw [denseRank_getD sc i hi', hmax]
    have hnil : sc.dedup.filter (fun v => listMax sc < v) = [] := by
      rw [List.filter_eq_nil_iff]
      intro v hv
      simpa using not_lt.mpr (listMax_ge sc v (List.mem_dedup.mp hv))
    rw [hnil]
    rfl
  · intro i j hi hj heq
    rw [hrk] at hi hj ⊢
    have hi' : i < sc.length := by simpa [denseRankDesc] using hi
    have hj' : j < sc.length := by simpa [denseRankDesc] using hj
    rw [denseRank_getD sc i hi', denseRank_getD sc j hj', heq]
  · refine ⟨sc.toFinset.card, ?_⟩
    intro r
    rw [hrk, denseRankDesc, List.mem_map]
    constructor
    · rintro ⟨x, hx, rfl⟩
      rw [dedup_filter_length_eq_card]
      have hb := rank_card_lt sc.toFinset x (List.mem_toFinset.mpr hx)
      omega
    · rintro ⟨hr1, hrK⟩
      obtain ⟨x, hxs, hcard⟩ := rank_attain sc.toFinset (r - 1) (by omega)
      refine ⟨x, List.mem_toFinset.mp hxs, ?_⟩
      dsimp only
      rw [dedup_filter_length_eq_card, hcard]
      omega
  · intro i hi
    rw [hrk] at hi ⊢
    have hi' : i < sc.length := by simpa [denseRankDesc] using hi
    rw [denseRank_getD sc i hi', dedup_filter_length_eq_card]

/-- **C3, witness**: the concrete valid run on `exTable` has a dense
descending rank column. -/
theorem rank_is_dense_descending_witness :
    (∀ i, i < (ranksOf exTable "1,1" "+,+").length →
      (scoresOf exTable "1,1" "+,+").getD i 0 =
        listMax (scoresOf exTable "1,1" "+,+") →
      (ranksOf exTable "1,1" "+,+").getD i 0 = 1) ∧
    (∀ i j, i < (ranksOf exTable "1,1" "+,+").length →
      j < (ranksOf exTable "1,1" "+,+").length →
      (scoresOf exTable "1,1" "+,+").getD i 0 =
        (scoresOf exTable "1,1" "+,+").getD j 0 →
      (ranksOf exTable "1,1" "+,+").getD i 0 =
        (ranksOf exTable "1,1" "+,+").getD j 0) ∧
    (∃ K, ∀ r, r ∈ ranksOf exTable "1,1" "+,+" ↔ 1 ≤ r ∧ r ≤ K) ∧
    (∀ i, i < (ranksOf exTable "1,1" "+,+").length →
      (ranksOf exTable "1,1" "+,+").getD i 0 =
        ((scoresOf exTable "1,1" "+,+").toFinset.filter
          (fun v => (scoresOf exTable "1,1" "+,+").getD i 0 < v)).card + 1) :=
  rank_is_dense_descending exTable "1,1" "+,+" (by decide)

end Topsis
